import Mathlib

/-!
Verification of the variability-testing core of `lande/fermi/likelihood/variability.py`
(class `CombinedVariabilityTester`).

Numbers are modelled exactly: rationals stand for the floating-point values the
code manipulates, and IEEE NaN is modelled by `none` in `FNum := Option ℚ`.
In the expressions of `compute_TS_var` an infinite value can never arise
(the only division has a denominator that is zero exactly when its numerator
is zero, which IEEE maps to NaN), so a numeric value is either a rational or NaN.
-/

/-- A numpy floating-point scalar as used by `compute_TS_var`: a finite value
(modelled exactly as a rational) or NaN (`none`). -/
abbrev FNum := Option ℚ

/-- IEEE addition on `FNum`: NaN propagates. -/
def fadd : FNum → FNum → FNum
  | some a, some b => some (a + b)
  | _, _ => none

/-- IEEE subtraction on `FNum`: NaN propagates. -/
def fsub : FNum → FNum → FNum
  | some a, some b => some (a - b)
  | _, _ => none

/-- IEEE multiplication on `FNum`: NaN propagates. -/
def fmul : FNum → FNum → FNum
  | some a, some b => some (a * b)
  | _, _ => none

/-- IEEE division on `FNum`: NaN propagates, and division by zero gives NaN.
In `compute_TS_var` the dividend is zero whenever the divisor is zero
(the divisor is a sum of squares one of which is the dividend), so the
IEEE quotients 0/0 = NaN is the only division-by-zero case reached and
mapping a zero divisor to `none` is exact. -/
def fdiv : FNum → FNum → FNum
  | some a, some b => if b = 0 then none else some (a / b)
  | _, _ => none

/-- Model of `np.isnan` on a scalar. -/
def fisnan : FNum → Bool
  | some _ => false
  | none => true

/-- Model of `np.sum` over a one-dimensional array: NaN propagates, the empty
sum is 0. -/
def fsum (xs : List FNum) : FNum := xs.foldr fadd (some 0)

/-- The class attribute `f = 0.02` of `CombinedVariabilityTester`
(variability.py line 133): the systematic-fraction constant. -/
def f_sys : ℚ := 1 / 50

/-- The constant `f` as the floating-point scalar used in `compute_TS_var`. -/
def f_sysF : FNum := some f_sys

/-- One per-bin fit result as read by `compute_TS_var` (variability.py lines
432-437): the log-likelihood pair `ll_0`/`ll_1` of the frozen and the
normalization-free fit, and the fitted flux. -/
structure BinResult where
  ll_0 : FNum
  ll_1 : FNum
  flux : FNum

/-- The damping fraction of `compute_TS_var` (variability.py line 443):
`fraction = df**2/(df**2 + f**2*F0**2)`, elementwise for one bin's `df`. -/
def damping_fraction (df F0 : FNum) : FNum :=
  fdiv (fmul df df) (fadd (fmul df df) (fmul (fmul f_sysF f_sysF) (fmul F0 F0)))

/-- One bin's contribution to the sum returned by `compute_TS_var`
(variability.py lines 440-449): `TS_var = 2*(ll1-ll0)`, the damping
`fraction`, `good_fraction = np.where(~np.isnan(fraction), fraction, 1)`
and elementwise `TS_var *= good_fraction`. -/
def binTerm (F0 : FNum) (b : BinResult) : FNum :=
  let df := fsub b.flux F0
  let ts := fmul (some 2) (fsub b.ll_1 b.ll_0)
  let fraction := damping_fraction df F0
  let good_fraction := if fisnan fraction then some 1 else fraction
  fmul ts good_fraction

/-- The method `CombinedVariabilityTester.compute_TS_var` (variability.py lines
430-451), for one backend: per-bin arrays `ll1`, `ll0`, `F` are read off the
ordered bin results, `df = F - F0`, `TS_var = 2*(ll1-ll0)` is damped
elementwise by `good_fraction` and summed with `np.sum`. -/
def compute_TS_var (bins : List BinResult) (F0 : FNum) : FNum :=
  fsum (bins.map (binTerm F0))

/-- A per-bin fit result whose three fields are finite (non-NaN) numbers. -/
structure SpecBin where
  ll_0 : ℚ
  ll_1 : ℚ
  flux : ℚ

/-- The floating-point bin result carrying the finite values of a `SpecBin`. -/
def SpecBin.toBinResult (b : SpecBin) : BinResult :=
  { ll_0 := some b.ll_0, ll_1 := some b.ll_1, flux := some b.flux }

/-- Written from the spec's words (section 4.3), the refinement target for
`compute_TS_var`: the sum over bins of `2*(ll_free - ll_frozen) * w` with
`w = df^2 / (df^2 + f_sys^2 * F0^2)` and `df = F - F0`. -/
def TS_var_spec (bins : List SpecBin) (F0 : ℚ) : ℚ :=
  (bins.map (fun b => 2 * (b.ll_1 - b.ll_0) *
    ((b.flux - F0) ^ 2 / ((b.flux - F0) ^ 2 + f_sys ^ 2 * F0 ^ 2)))).sum

/-- The systematic-fraction constant `f = 0.02` over the reals, for the
asymptotic statement about the damping weight. -/
noncomputable def f_sysR : ℝ := 1 / 50

/-- The damping fraction of variability.py line 443 over the reals
(`df**2/(df**2 + f**2*F0**2)`), used for the asymptotic claim about large
flux deviations. -/
noncomputable def damping_fraction_real (df F0 : ℝ) : ℝ :=
  df ^ 2 / (df ^ 2 + f_sysR ^ 2 * F0 ^ 2)

/-- Model of `np.round` on a scalar: round to the nearest integer, ties to the
even integer (IEEE round-half-even, which is what numpy implements). -/
def np_round (x : ℚ) : ℤ :=
  let n := ⌊x⌋
  let r := x - n
  if r < 1 / 2 then n
  else if 1 / 2 < r then n + 1
  else if Even n then n else n + 1

/-- The k-th evenly spaced point of `np.linspace(earliest, latest, nbins+1)`
(variability.py line 201): `earliest + k*(latest-earliest)/nbins`. -/
def edgeQ (earliest latest : ℚ) (nbins k : ℕ) : ℚ :=
  earliest + (k : ℚ) * ((latest - earliest) / (nbins : ℚ))

/-- The integer bin edges of `_setup_time_bins` in the `nbins` branch
(variability.py line 201): `b = np.round(np.linspace(earliest, latest,
nbins+1)).astype(int)`. -/
def time_bin_edges (earliest latest : ℚ) (nbins : ℕ) : List ℤ :=
  (List.range (nbins + 1)).map (fun k => np_round (edgeQ earliest latest nbins k))

/-- Model of `starts = b[:-1]` (variability.py line 202). -/
def time_bin_starts (earliest latest : ℚ) (nbins : ℕ) : List ℤ :=
  (time_bin_edges earliest latest nbins).dropLast

/-- Model of `stops = b[1:]` (variability.py line 203). -/
def time_bin_stops (earliest latest : ℚ) (nbins : ℕ) : List ℤ :=
  (time_bin_edges earliest latest nbins).tail

/-- The bins given by parallel start/stop lists cover the interval from `a` to
`b`: every time in the interval lies inside some bin. -/
def covers (starts stops : List ℤ) (a b : ℚ) : Prop :=
  ∀ t : ℚ, a ≤ t → t ≤ b →
    ∃ (k : ℕ) (sk tk : ℤ), starts[k]? = some sk ∧ stops[k]? = some tk ∧
      (sk : ℚ) ≤ t ∧ t ≤ (tk : ℚ)

/-- The three configuration checks opening `_setup_time_bins` (variability.py
lines 187-192), in source order; `true` means the corresponding exception is
raised. A parameter was supplied exactly when the option holds a value. -/
def time_bins_config_error (nbins : Option ℕ)
    (tstarts tstops : Option (List ℤ)) : Bool :=
  if nbins.isNone && (tstarts.isNone && tstops.isNone) then true
  else if nbins.isSome && (tstarts.isSome && tstops.isSome) then true
  else if tstarts.isNone && tstops.isSome || tstarts.isSome && tstops.isNone then true
  else false

/-- The upper-limit step of `each_time_fit_pointlike` (variability.py lines
306-310): when `TS < self.min_ts or self.always_upper_limit`, the collaborator
`PointlikeUpperLimit(smaller_roi, name, cl=0.95, ...)` is invoked and its
result stored, else `upper_limit` is `None`. The returned value is the
confidence level passed to the collaborator; the configured `ul_confidence`
is in scope (processed from the defaults of line 142) but the call hardcodes
`cl=0.95`. -/
def pointlike_upper_limit_call (min_ts : ℚ) (always_upper_limit : Bool)
    (ul_confidence : ℚ) (TS : ℚ) : Option ℚ :=
  if TS < min_ts || always_upper_limit then some (95 / 100) else none

/-- The upper-limit step of `each_time_fit_gtlike` (variability.py lines
371-377): same decision, and `GtlikeUpperLimit(like, name, cl=0.95, ...)`
again hardcodes `cl=0.95` instead of the configured `ul_confidence`. -/
def gtlike_upper_limit_call (min_ts : ℚ) (always_upper_limit : Bool)
    (ul_confidence : ℚ) (TS : ℚ) : Option ℚ :=
  if TS < min_ts || always_upper_limit then some (95 / 100) else none

/-- A source model: for each source name, whether its parameters are free.
`modify(..., free=False)` freezes the named source. -/
def modifyFree (m : List (String × Bool)) (which : String) (free : Bool) :
    List (String × Bool) :=
  m.map (fun p => if p.fst = which then (p.fst, free) else p)

/-- The freeze stage of `each_time_fit_pointlike` (variability.py lines
266-275). The `refit_background` branch's loop body is
`roi.modify(which=source, free=False)` (line 268): the name `roi` is bound
nowhere in the function or module scope (the per-bin ROI is `smaller_roi`),
so executing one iteration of that loop raises `NameError`; with an empty
background list the body never runs. The `refit_other_sources` branch
correctly freezes via `smaller_roi.modify`, and line 275 freezes the source
of interest. -/
def pointlike_freeze_stage (refit_background refit_other_sources : Bool)
    (background sources : List String) (name : String)
    (m : List (String × Bool)) : Except String (List (String × Bool)) :=
  if !refit_background && !background.isEmpty then
    Except.error "NameError: name roi is not defined"
  else
    let m1 := m
    let m2 := if !refit_other_sources then
        sources.foldl (fun acc s => modifyFree acc s false) m1
      else m1
    Except.ok (modifyFree m2 name false)

/-- The freeze stage of `each_time_fit_gtlike` (variability.py lines 332-338
and 348): background sources, then other sources, then the source of
interest, each frozen through `modify(like, source, free=False)`. -/
def gtlike_freeze_stage (refit_background refit_other_sources : Bool)
    (background sources : List String) (name : String)
    (m : List (String × Bool)) : List (String × Bool) :=
  let m1 := if !refit_background then
      background.foldl (fun acc s => modifyFree acc s false) m
    else m
  let m2 := if !refit_other_sources then
      sources.foldl (fun acc s => modifyFree acc s false) m1
    else m1
  modifyFree m2 name false

/-- A pointlike ROI as seen by the constructor: the parameter state captured
by `PointlikeState`, and everything else about the object. -/
structure ModelROI (α β : Type) where
  params : α
  extra : β

/-- The `PointlikeState` collaborator (uw.like.roi_state), by its contract:
constructing it snapshots the ROI's parameter state. -/
structure PState (α : Type) where
  snapshot : α

/-- Model of `PointlikeState(roi)` (variability.py line 167). -/
def pstate_save {α β : Type} (roi : ModelROI α β) : PState α :=
  { snapshot := roi.params }

/-- Model of `saved_state.restore()` (variability.py line 171): the ROI's parameter
state is set back to the snapshot; the rest of the ROI is untouched. -/
def pstate_restore {α β : Type} (s : PState α) (roi : ModelROI α β) :
    ModelROI α β :=
  { roi with params := s.snapshot }

/-- Lines 167-171 of `CombinedVariabilityTester.__init__`: snapshot the ROI,
run `_test_variability` (an arbitrary mutation of the ROI that may also fail,
in which case the restore is never reached), then restore the snapshot. -/
def variability_run {α β γ : Type} (test : ModelROI α β → Option (ModelROI α β × γ))
    (roi : ModelROI α β) : Option (ModelROI α β × γ) :=
  let saved := pstate_save roi
  match test roi with
  | none => none
  | some (roi2, res) => some (pstate_restore saved roi2, res)

/-- The `SuperState` collaborator (this package's superstate module, outside
the staged sources), by its contract: constructing it snapshots a gtlike
object's parameter state, and `restore(like)` writes that snapshot into the
given gtlike object. -/
structure GSuper (π : Type) where
  snapshot : π

/-- Lines 246-250 of `all_time_fit`: `paranoid_gtlike_fit(like)` (the opaque
fit, mutating the all-time like object), then
`self.best_gtlike_state = SuperState(like)` snapshots the fitted state. -/
def all_time_gtlike_fit {π : Type} (fit : π → π) (like0 : π) : π × GSuper π :=
  let fitted := fit like0
  (fitted, { snapshot := fitted })

/-- Lines 322-330 of `each_time_fit_gtlike`: a fresh per-bin like object is
built, then `self.best_gtlike_state.restore(like)` overwrites its parameters,
so the state the bin's fitting starts from is the saved snapshot. -/
def each_time_gtlike_start {π : Type} (best : GSuper π) (fresh_like : π) : π :=
  best.snapshot

/-- The per-bin loop of `_test_variability` restricted to its gtlike part
(variability.py lines 389-410): for each bin, a per-bin like is built from
the current pointlike state by `build`, the saved best state is restored into
it, and the bin's (opaque) freezing-and-fitting `f` runs from that start; the
pointlike state evolves by `step`, which may see the bin's fitted like.
Returns, in bin order, the like state each bin's gtlike fitting starts from. -/
def run_gtlike_bins {π σ : Type} (best : GSuper π) (build : σ → π)
    (binfits : List (π → π)) (step : σ → π → σ) (s0 : σ) : List π :=
  match binfits with
  | [] => []
  | f :: rest =>
      let like := build s0
      let start := each_time_gtlike_start best like
      let final := f start
      start :: run_gtlike_bins best build rest step (step s0 final)

/-- The squared residual minimized by `_TS_to_sigma` (variability.py line
639): `f = lambda i: (2*normdist.sf(i) - prob)**2`, with
`prob = chidist.sf(ts)` (line 633). The survival functions of the external
scipy collaborators are parameters. -/
def sigma_residual (norm_sf : ℝ → ℝ) (prob i : ℝ) : ℝ :=
  (2 * norm_sf i - prob) ^ 2

/-- Idealization of the `fmin` call of `_TS_to_sigma` (variability.py lines
642-643, run with effectively zero `xtol`/`ftol`): the returned sigma is a
global minimizer of the squared residual at `prob = chi2_sf ts`. -/
def IsTSSigma (chi2_sf norm_sf : ℝ → ℝ) (ts sigma : ℝ) : Prop :=
  ∀ y : ℝ, sigma_residual norm_sf (chi2_sf ts) sigma ≤
    sigma_residual norm_sf (chi2_sf ts) y

lemma fadd_some (a b : ℚ) : fadd (some a) (some b) = some (a + b) := rfl

lemma fadd_zero_left : ∀ x : FNum, fadd (some 0) x = x
  | some a => by simp [fadd]
  | none => rfl

lemma fadd_assoc : ∀ a b c : FNum, fadd (fadd a b) c = fadd a (fadd b c)
  | some _, some _, some _ => by simp [fadd, add_assoc]
  | some _, some _, none => rfl
  | some _, none, _ => rfl
  | none, _, _ => rfl

lemma fsum_cons (x : FNum) (xs : List FNum) : fsum (x :: xs) = fadd x (fsum xs) := rfl

lemma foldr_fadd_eq (xs : List FNum) (c : FNum) :
    xs.foldr fadd c = fadd (fsum xs) c := by
  induction xs with
  | nil => exact (fadd_zero_left c).symm
  | cons y ys ih =>
      simp only [List.foldr_cons, ih, fsum_cons, fadd_assoc]

lemma fsum_append (xs ys : List FNum) :
    fsum (xs ++ ys) = fadd (fsum xs) (fsum ys) := by
  simp only [fsum, List.foldr_append]
  exact foldr_fadd_eq xs (ys.foldr fadd (some 0))

/-- Evaluation of one finite bin's contribution when the damping denominator is
nonzero: the source's `good_fraction` is the damping fraction itself. -/
lemma binTerm_finite (b : SpecBin) (F0 : ℚ)
    (h : (b.flux - F0) ^ 2 + f_sys ^ 2 * F0 ^ 2 ≠ 0) :
    binTerm (some F0) b.toBinResult =
      some (2 * (b.ll_1 - b.ll_0) *
        ((b.flux - F0) ^ 2 / ((b.flux - F0) ^ 2 + f_sys ^ 2 * F0 ^ 2))) := by
  have hd : (b.flux - F0) * (b.flux - F0) + f_sys * f_sys * (F0 * F0) ≠ 0 := by
    intro h0
    apply h
    rw [pow_two, pow_two, pow_two]
    linarith [h0]
  simp only [binTerm, SpecBin.toBinResult, damping_fraction, fsub, fmul, fadd, f_sysF, fdiv,
    if_neg hd, fisnan, if_neg Bool.false_ne_true]
  rw [pow_two, pow_two, pow_two]

lemma TS_var_spec_cons (b : SpecBin) (bs : List SpecBin) (F0 : ℚ) :
    TS_var_spec (b :: bs) F0 =
      2 * (b.ll_1 - b.ll_0) *
        ((b.flux - F0) ^ 2 / ((b.flux - F0) ^ 2 + f_sys ^ 2 * F0 ^ 2)) +
      TS_var_spec bs F0 := by
  simp [TS_var_spec]

/-- Core refinement: on bins of finite values whose damping denominators are
nonzero, `compute_TS_var` returns exactly the spec's weighted sum. -/
lemma compute_TS_var_eq_spec (bins : List SpecBin) (F0 : ℚ)
    (hden : ∀ b ∈ bins, (b.flux - F0) ^ 2 + f_sys ^ 2 * F0 ^ 2 ≠ 0) :
    compute_TS_var (bins.map SpecBin.toBinResult) (some F0) =
      some (TS_var_spec bins F0) := by
  induction bins with
  | nil => rfl
  | cons b bs ih =>
      have hb := hden b (List.mem_cons_self b bs)
      have hbs : ∀ x ∈ bs, (x.flux - F0) ^ 2 + f_sys ^ 2 * F0 ^ 2 ≠ 0 :=
        fun x hx => hden x (List.mem_cons_of_mem b hx)
      simp only [compute_TS_var, List.map_cons, fsum_cons] at *
      rw [binTerm_finite b F0 hb, ih hbs, fadd_some, TS_var_spec_cons]

/-- C1: for every ordered sequence of per-bin fit results with finite
log-likelihood pairs and fluxes, and an all-time flux `F0` such that no bin's
damping denominator vanishes, `compute_TS_var` returns the sum over bins of
`2*(ll_1 - ll_0) * w` with `w = df^2/(df^2 + f^2*F0^2)`, `df = F - F0` and
`f` the systematic-fraction constant `0.02`. -/
theorem compute_TS_var_matches_spec (bins : List SpecBin) (F0 : ℚ)
    (hden : ∀ b ∈ bins, (b.flux - F0) ^ 2 + f_sys ^ 2 * F0 ^ 2 ≠ 0) :
    compute_TS_var (bins.map SpecBin.toBinResult) (some F0) =
      some (TS_var_spec bins F0) :=
  compute_TS_var_eq_spec bins F0 hden

theorem compute_TS_var_matches_spec_witness :
    compute_TS_var
        (([{ ll_0 := 1, ll_1 := 2, flux := 3 },
           { ll_0 := 0, ll_1 := 1, flux := 0 }] : List SpecBin).map
          SpecBin.toBinResult) (some 1) =
      some (TS_var_spec
        [{ ll_0 := 1, ll_1 := 2, flux := 3 },
         { ll_0 := 0, ll_1 := 1, flux := 0 }] 1) :=
  compute_TS_var_matches_spec _ 1 (by
    intro b hb
    fin_cases hb <;> norm_num [f_sys])

/-- C4: for every sequence of bins in which exactly one bin has a NaN flux
(hence a NaN flux deviation and NaN damping fraction) while every other bin
is finite with nonvanishing damping denominator, the summed `TS_var` is not
NaN: the NaN bin contributes its raw `2*(ll_1 - ll_0)` undamped and all other
bins contribute their damped statistics unchanged. -/
theorem compute_TS_var_nan_flux (pre post : List SpecBin) (a0 a1 F0 : ℚ)
    (hpre : ∀ b ∈ pre, (b.flux - F0) ^ 2 + f_sys ^ 2 * F0 ^ 2 ≠ 0)
    (hpost : ∀ b ∈ post, (b.flux - F0) ^ 2 + f_sys ^ 2 * F0 ^ 2 ≠ 0) :
    compute_TS_var
        (pre.map SpecBin.toBinResult ++
          ({ ll_0 := some a0, ll_1 := some a1, flux := none } : BinResult) ::
            post.map SpecBin.toBinResult) (some F0) =
      some (TS_var_spec pre F0 + (2 * (a1 - a0) + TS_var_spec post F0)) := by
  have h1 := compute_TS_var_eq_spec pre F0 hpre
  have h2 := compute_TS_var_eq_spec post F0 hpost
  have hnan : binTerm (some F0)
      { ll_0 := some a0, ll_1 := some a1, flux := none } = some (2 * (a1 - a0)) := by
    simp [binTerm, damping_fraction, fsub, fmul, fadd, fdiv, fisnan]
  simp only [compute_TS_var, List.map_append, List.map_cons] at *
  rw [fsum_append, fsum_cons, hnan, h1, h2, fadd_some, fadd_some]

theorem compute_TS_var_nan_flux_witness :
    compute_TS_var
        (([{ ll_0 := 0, ll_1 := 1, flux := 2 }] : List SpecBin).map
            SpecBin.toBinResult ++
          ({ ll_0 := some 5, ll_1 := some 7, flux := none } : BinResult) ::
            ([{ ll_0 := 1, ll_1 := 3, flux := 4 }] : List SpecBin).map
              SpecBin.toBinResult) (some 1) =
      some (TS_var_spec [{ ll_0 := 0, ll_1 := 1, flux := 2 }] 1 +
        (2 * (7 - 5) + TS_var_spec [{ ll_0 := 1, ll_1 := 3, flux := 4 }] 1)) :=
  compute_TS_var_nan_flux _ _ 5 7 1
    (by intro b hb; fin_cases hb <;> norm_num [f_sys])
    (by intro b hb; fin_cases hb <;> norm_num [f_sys])

/-- C5, counterexample: with all-time flux `F0 = 0` (and the code's fixed
systematic fraction `f = 0.02`) the damping weight at flux deviation
`df = 0` is not 0: the fraction is `0/0`, NaN, and `compute_TS_var` then
weights the bin by 1, so a bin with `df = 0` and `ll_1 - ll_0 = 1/2`
contributes 1, not nothing. -/
theorem damping_weight_zero_counterexample :
    damping_fraction (some 0) (some 0) = none ∧
    compute_TS_var [{ ll_0 := some 0, ll_1 := some (1 / 2), flux := some 0 }]
        (some 0) = some 1 ∧
    (1 : ℚ) ≠ 0 := by
  refine ⟨?_, ?_, one_ne_zero⟩
  · simp [damping_fraction, fmul, fadd, f_sysF, fdiv, f_sys]
  · norm_num [compute_TS_var, binTerm, damping_fraction, fsub, fmul, fadd,
      fdiv, fisnan, fsum, f_sysF, f_sys]

/-- C5 (amended): for every all-time flux `F0 ≠ 0` (the systematic fraction
is the fixed `f = 0.02`), the damping weight at flux deviation `df = 0` is 0,
so the bin contributes nothing to `TS_var`; and for every all-time flux the
weight tends to 1 as the flux deviation tends to infinity. At `F0 = 0` the
weight at `df = 0` is instead NaN and the code replaces it by 1. -/
theorem damping_weight_amended (F0 : ℚ) (G0 : ℝ) (h : F0 ≠ 0) :
    damping_fraction (some 0) (some F0) = some 0 ∧
    Filter.Tendsto (fun df => damping_fraction_real df G0) Filter.atTop
      (nhds 1) := by
  constructor
  · have hd : (0 : ℚ) * 0 + f_sys * f_sys * (F0 * F0) ≠ 0 := by
      simpa [f_sys] using h
    simp only [damping_fraction, fmul, fadd, f_sysF, fdiv, if_neg hd]
    norm_num
  · set c : ℝ := f_sysR ^ 2 * G0 ^ 2 with hc
    have h1 : Filter.Tendsto (fun df : ℝ => df ^ 2 + c) Filter.atTop
        Filter.atTop :=
      Filter.tendsto_atTop_add_const_right _ c
        (Filter.tendsto_pow_atTop two_ne_zero)
    have h2 : Filter.Tendsto (fun df : ℝ => c / (df ^ 2 + c)) Filter.atTop
        (nhds 0) :=
      Filter.Tendsto.div_atTop tendsto_const_nhds h1
    have h3 : Filter.Tendsto (fun df : ℝ => 1 - c / (df ^ 2 + c)) Filter.atTop
        (nhds 1) := by
      simpa using Filter.Tendsto.sub tendsto_const_nhds h2
    refine Filter.Tendsto.congr' ?_ h3
    filter_upwards [Filter.eventually_ge_atTop (1 : ℝ)] with df hdf
    have hpos : (0 : ℝ) < df ^ 2 + c := by
      have hc0 : 0 ≤ c := by rw [hc]; positivity
      nlinarith
    have hne : df ^ 2 + c ≠ 0 := ne_of_gt hpos
    rw [damping_fraction_real, ← hc]
    field_simp

theorem damping_weight_amended_witness :
    damping_fraction (some 0) (some 1) = some 0 ∧
    Filter.Tendsto (fun df => damping_fraction_real df 1) Filter.atTop
      (nhds 1) :=
  damping_weight_amended 1 1 (by norm_num)

/-- C6: the configuration checks of `_setup_time_bins` (run during `__init__`
setup, before `_test_variability` performs any fit) raise no exception exactly
when one of the two time-binning forms is supplied: `nbins` alone, or both
`tstarts` and `tstops`. Supplying both forms, neither form, or only one of
`tstarts`/`tstops` (with or without `nbins`) raises. -/
theorem time_bins_config_error_iff (nb : Option ℕ) (ts tp : Option (List ℤ)) :
    time_bins_config_error nb ts tp = false ↔
      (nb.isSome = true ∧ ts = none ∧ tp = none) ∨
      (nb = none ∧ ts.isSome = true ∧ tp.isSome = true) := by
  rcases nb with _ | n <;> rcases ts with _ | xs <;> rcases tp with _ | ys <;>
    simp [time_bins_config_error]

theorem time_bins_config_error_iff_witness :
    time_bins_config_error (some 4) none none = false :=
  (time_bins_config_error_iff (some 4) none none).mpr
    (Or.inl ⟨rfl, rfl, rfl⟩)

/-- C7: at the configuration `min_ts = 4`, `always_upper_limit = False`,
`ul_confidence = 0.85`, both per-bin fitters compute an upper limit exactly
when `TS < min_ts` or the always-compute flag is set (a bin with `TS = 5` gets
`None`, with the flag it gets one), but the confidence level passed to the
upper-limit collaborator is the hardcoded `0.95`, not the configured
`ul_confidence = 0.85`. -/
theorem upper_limit_hardcoded_cl :
    pointlike_upper_limit_call 4 false (85 / 100) 0 = some (95 / 100) ∧
    gtlike_upper_limit_call 4 false (85 / 100) 0 = some (95 / 100) ∧
    (95 : ℚ) / 100 ≠ 85 / 100 ∧
    pointlike_upper_limit_call 4 false (85 / 100) 5 = none ∧
    gtlike_upper_limit_call 4 false (85 / 100) 5 = none ∧
    pointlike_upper_limit_call 4 true (85 / 100) 5 = some (95 / 100) := by
  norm_num [pointlike_upper_limit_call, gtlike_upper_limit_call]

/-- C8: with `refit_background` disabled (and `refit_other_sources` enabled),
the gtlike per-bin fitter freezes every background source of the per-bin model
before the frozen fit, but the pointlike per-bin fitter raises `NameError`
(its loop body references the undefined name `roi` instead of `smaller_roi`,
variability.py line 268), so that option cannot be disabled without error
there. Disabling only `refit_other_sources` does work in the pointlike
fitter: the other source is frozen and the background stays free. -/
theorem freeze_options_pointlike_bug :
    pointlike_freeze_stage false true ["galactic", "isotropic"] ["other"] "psr"
        [("galactic", true), ("isotropic", true), ("other", true), ("psr", true)] =
      Except.error "NameError: name roi is not defined" ∧
    gtlike_freeze_stage false true ["galactic", "isotropic"] ["other"] "psr"
        [("galactic", true), ("isotropic", true), ("other", true), ("psr", true)] =
      [("galactic", false), ("isotropic", false), ("other", true), ("psr", false)] ∧
    pointlike_freeze_stage true false ["galactic", "isotropic"] ["other"] "psr"
        [("galactic", true), ("isotropic", true), ("other", true), ("psr", true)] =
      Except.ok
        [("galactic", true), ("isotropic", true), ("other", false), ("psr", false)] := by
  refine ⟨rfl, ?_, ?_⟩ <;>
    simp [pointlike_freeze_stage, gtlike_freeze_stage, modifyFree]

/-- C9: for every run of the variability test that completes without error,
the caller's pointlike ROI parameter state is unchanged: the constructor
snapshots the ROI with `PointlikeState` before the all-time and per-bin fits
and restores that snapshot after they complete, so the fits' mutations of the
shared ROI are not visible to the caller afterward. -/
theorem variability_run_preserves_params {α β γ : Type}
    (test : ModelROI α β → Option (ModelROI α β × γ)) (roi roi2 : ModelROI α β)
    (res : γ) (h : variability_run test roi = some (roi2, res)) :
    roi2.params = roi.params := by
  unfold variability_run at h
  cases htest : test roi with
  | none => rw [htest] at h; exact absurd h (by simp)
  | some p =>
      obtain ⟨r2, rr⟩ := p
      rw [htest] at h
      simp only [Option.some.injEq, Prod.mk.injEq] at h
      obtain ⟨h4, _⟩ := h
      rw [← h4]
      rfl

theorem variability_run_preserves_params_witness :
    (({ params := 5, extra := 8 } : ModelROI ℤ ℤ)).params =
      (({ params := 5, extra := 7 } : ModelROI ℤ ℤ)).params :=
  variability_run_preserves_params
    (fun r : ModelROI ℤ ℤ =>
      some ({ params := r.params * 3, extra := r.extra + 1 }, r.params))
    { params := 5, extra := 7 } { params := 5, extra := 8 } 5 rfl

/-- C10: every per-bin gtlike fit begins from the all-time best-fit parameter
state, not from the previous bin's fitted state: for every all-time fit
(whose fitted state `all_time_fit` saves once in `best_gtlike_state`), every
sequence of per-bin fits and every evolution of the shared pointlike state
(even one that feeds each bin's fitted like object forward),
`each_time_fit_gtlike` restores the saved state into the freshly built
per-bin likelihood object before any freezing or fitting, for every bin in
order. -/
theorem gtlike_bins_start_from_all_time {π σ : Type} (fit : π → π) (like0 : π)
    (build : σ → π) (binfits : List (π → π)) (step : σ → π → σ) (s0 : σ) :
    run_gtlike_bins (all_time_gtlike_fit fit like0).2 build binfits step s0 =
      binfits.map (fun _ => fit like0) := by
  induction binfits generalizing s0 with
  | nil => rfl
  | cons f rest ih =>
      simp only [run_gtlike_bins, each_time_gtlike_start, all_time_gtlike_fit,
        List.map_cons]
      exact congrArg _ (ih _)

/-- C3: idealizing the external scipy collaborators (`stats.chi2(nbins-1).sf`
and `stats.norm(0,1).sf` as opaque survival functions, `fmin` with the
effectively zero tolerances of line 642 as exact minimization of the squared
residual), every sigma returned by `_TS_to_sigma` satisfies
`2*SF_normal(sigma) = SF_chi2(nbins-1)(ts)` whenever that equation has a
solution; and at `ts = 0`, since the chi-squared survival function of
`nbins-1 ≥ 1` degrees of freedom is 1 at 0 and the standard normal survival
function is strictly decreasing with value 1/2 at 0, the returned sigma is 0
(covering `_TS_to_sigma(0, 36)` and `_TS_to_sigma(0, 24)`). -/
theorem TS_to_sigma_characterization (chi2_sf norm_sf : ℝ → ℝ) (ts sigma : ℝ)
    (hroot : ∃ r : ℝ, 2 * norm_sf r = chi2_sf ts)
    (hmin : IsTSSigma chi2_sf norm_sf ts sigma) :
    2 * norm_sf sigma = chi2_sf ts ∧
    (ts = 0 → chi2_sf 0 = 1 → norm_sf 0 = 1 / 2 → StrictAnti norm_sf →
      sigma = 0) := by
  obtain ⟨r, hr⟩ := hroot
  have hr0 : sigma_residual norm_sf (chi2_sf ts) r = 0 := by
    rw [sigma_residual, hr]
    ring
  have hle := hmin r
  rw [hr0] at hle
  have hge : 0 ≤ sigma_residual norm_sf (chi2_sf ts) sigma := by
    rw [sigma_residual]
    positivity
  have heq0 : sigma_residual norm_sf (chi2_sf ts) sigma = 0 :=
    le_antisymm hle hge
  rw [sigma_residual] at heq0
  have hbase : 2 * norm_sf sigma - chi2_sf ts = 0 :=
    (pow_eq_zero_iff two_ne_zero).mp heq0
  have heq : 2 * norm_sf sigma = chi2_sf ts := by linarith
  refine ⟨heq, fun hts h1 h2 hanti => ?_⟩
  have hs : norm_sf sigma = 1 / 2 := by
    rw [hts, h1] at heq
    linarith
  have hs0 : norm_sf sigma = norm_sf 0 := by rw [hs, h2]
  exact hanti.injective hs0

theorem TS_to_sigma_characterization_witness :
    2 * ((fun x : ℝ => 1 / 2 - x) 0) = (fun _ : ℝ => (1 : ℝ)) 0 ∧
    ((0 : ℝ) = 0 → (fun _ : ℝ => (1 : ℝ)) 0 = 1 →
      (fun x : ℝ => 1 / 2 - x) 0 = 1 / 2 →
      StrictAnti (fun x : ℝ => 1 / 2 - x) → (0 : ℝ) = 0) :=
  TS_to_sigma_characterization (fun _ => 1) (fun x => 1 / 2 - x) 0 0
    ⟨0, by norm_num⟩
    (fun y => by
      rw [sigma_residual, sigma_residual]
      norm_num
      positivity)

lemma np_round_ge_floor (x : ℚ) : ⌊x⌋ ≤ np_round x := by
  simp only [np_round]
  split_ifs <;> omega

lemma np_round_le_floor_succ (x : ℚ) : np_round x ≤ ⌊x⌋ + 1 := by
  simp only [np_round]
  split_ifs <;> omega

lemma np_round_le_add_half (x : ℚ) : (np_round x : ℚ) ≤ x + 1 / 2 := by
  have hfl : (⌊x⌋ : ℚ) ≤ x := Int.floor_le x
  simp only [np_round]
  split_ifs with h1 h2 <;> push_cast <;> linarith

lemma sub_half_le_np_round (x : ℚ) : x - 1 / 2 ≤ (np_round x : ℚ) := by
  have hfu : x < ⌊x⌋ + 1 := Int.lt_floor_add_one x
  simp only [np_round]
  split_ifs with h1 h2 <;> push_cast <;> linarith

lemma np_round_abs_le (x : ℚ) : |(np_round x : ℚ) - x| ≤ 1 / 2 := by
  rw [abs_le]
  constructor
  · linarith [sub_half_le_np_round x]
  · linarith [np_round_le_add_half x]

lemma np_round_mono {x y : ℚ} (h : x ≤ y) : np_round x ≤ np_round y := by
  rcases lt_or_eq_of_le (Int.floor_mono h) with hf | hf
  · calc np_round x ≤ ⌊x⌋ + 1 := np_round_le_floor_succ x
      _ ≤ ⌊y⌋ := by omega
      _ ≤ np_round y := np_round_ge_floor y
  · simp only [np_round, ← hf]
    split_ifs <;> first | omega | linarith

lemma time_bin_starts_eq (e l : ℚ) (n : ℕ) :
    time_bin_starts e l n =
      (List.range n).map (fun k => np_round (edgeQ e l n k)) := by
  rw [time_bin_starts, time_bin_edges, List.range_succ]
  simp

lemma time_bin_stops_eq (e l : ℚ) (n : ℕ) :
    time_bin_stops e l n =
      (List.range n).map (fun k => np_round (edgeQ e l n (k + 1))) := by
  rw [time_bin_stops, time_bin_edges, List.range_succ_eq_map, List.map_cons,
    List.tail_cons, List.map_map]
  rfl

lemma time_bin_starts_get (e l : ℚ) (n k : ℕ) (hk : k < n) :
    (time_bin_starts e l n)[k]? = some (np_round (edgeQ e l n k)) := by
  rw [time_bin_starts_eq, List.getElem?_map, List.getElem?_range hk]
  rfl

lemma time_bin_stops_get (e l : ℚ) (n k : ℕ) (hk : k < n) :
    (time_bin_stops e l n)[k]? = some (np_round (edgeQ e l n (k + 1))) := by
  rw [time_bin_stops_eq, List.getElem?_map, List.getElem?_range hk]
  rfl

lemma edgeQ_zero (e l : ℚ) (n : ℕ) : edgeQ e l n 0 = e := by
  simp [edgeQ]

lemma edgeQ_last (e l : ℚ) (n : ℕ) (hn : n ≠ 0) : edgeQ e l n n = l := by
  have h : (n : ℚ) ≠ 0 := Nat.cast_ne_zero.mpr hn
  rw [edgeQ]
  field_simp

lemma exists_crossing (f : ℕ → ℚ) :
    ∀ n : ℕ, 1 ≤ n → ∀ t : ℚ, f 0 ≤ t → t ≤ f n →
      ∃ k, k < n ∧ f k ≤ t ∧ t ≤ f (k + 1) := by
  intro n
  induction n with
  | zero => exact fun h => absurd h (by omega)
  | succ m ih =>
      intro _ t h0 h1
      rcases Nat.eq_zero_or_pos m with hm | hm
      · subst hm
        exact ⟨0, by omega, h0, h1⟩
      · by_cases htm : t ≤ f m
        · obtain ⟨k, hk, h2, h3⟩ := ih hm t h0 htm
          exact ⟨k, by omega, h2, h3⟩
        · push_neg at htm
          exact ⟨m, by omega, le_of_lt htm, h1⟩

/-- C2, counterexample: with `earliest = 3/5`, `latest = 5` and `nbins = 1`
the single bin produced by `_setup_time_bins` is `[1, 5]` (its edges are the
evenly spaced points rounded to integer seconds), and no bin contains the
time `3/5 = earliest`, so the bins do not cover `[earliest, latest]` as the
claim states. -/
theorem time_bins_cover_counterexample :
    time_bin_starts (3 / 5) 5 1 = [1] ∧ time_bin_stops (3 / 5) 5 1 = [5] ∧
    ¬ covers (time_bin_starts (3 / 5) 5 1) (time_bin_stops (3 / 5) 5 1)
        (3 / 5) 5 := by
  have e0 : edgeQ (3 / 5) 5 1 0 = 3 / 5 := edgeQ_zero _ _ _
  have e1 : edgeQ (3 / 5) 5 1 1 = 5 := edgeQ_last _ _ _ one_ne_zero
  have hf0 : ⌊(3 / 5 : ℚ)⌋ = 0 := by norm_num [Int.floor_eq_iff]
  have r0 : np_round (3 / 5) = 1 := by
    simp only [np_round, hf0]
    norm_num
  have r1 : np_round (5 : ℚ) = 5 := by
    have hf5 : ⌊(5 : ℚ)⌋ = 5 := by norm_num
    simp only [np_round, hf5]
    norm_num
  have hs : time_bin_starts (3 / 5) 5 1 = [1] := by
    rw [time_bin_starts_eq]
    simp [List.range_succ, e0, r0]
  have hp : time_bin_stops (3 / 5) 5 1 = [5] := by
    rw [time_bin_stops_eq]
    simp [List.range_succ, e1, r1]
  refine ⟨hs, hp, ?_⟩
  intro h
  obtain ⟨k, sk, tk, hsk, htk, hle, _⟩ := h (3 / 5) le_rfl (by norm_num)
  rw [hs] at hsk
  match k, hsk with
  | 0, hsk =>
      have h1 : 1 = sk := by
        simpa using hsk
      rw [← h1] at hle
      norm_num at hle
  | k + 1, hsk => simp at hsk

/-- C2 (amended): for every `nbins ≥ 1` and `earliest ≤ latest`, the time-bin
setup produces exactly `nbins` bins; bin `k` runs from the rounded evenly
spaced point `earliest + k*(latest-earliest)/nbins` to the rounded point
`k+1`, each edge rounded to the nearest integer second (within 1/2 of the
exact point); the bins are contiguous (bin k's stop equals bin k+1's start);
and they cover the rounded span `[round(earliest), round(latest)]` — not
`[earliest, latest]` itself, whose endpoints need not be integers (see the
counterexample). -/
theorem time_bins_amended (e l : ℚ) (n : ℕ) (h1 : 1 ≤ n) (hel : e ≤ l) :
    (time_bin_starts e l n).length = n ∧
    (time_bin_stops e l n).length = n ∧
    (∀ k, k < n →
      (time_bin_starts e l n)[k]? = some (np_round (edgeQ e l n k)) ∧
      (time_bin_stops e l n)[k]? = some (np_round (edgeQ e l n (k + 1)))) ∧
    (∀ k, k ≤ n → |(np_round (edgeQ e l n k) : ℚ) - edgeQ e l n k| ≤ 1 / 2) ∧
    (∀ k, k + 1 < n →
      (time_bin_stops e l n)[k]? = (time_bin_starts e l n)[k + 1]?) ∧
    covers (time_bin_starts e l n) (time_bin_stops e l n)
      ((np_round e : ℤ) : ℚ) ((np_round l : ℤ) : ℚ) := by
  have hn0 : n ≠ 0 := by omega
  refine ⟨?_, ?_, ?_, ?_, ?_, ?_⟩
  · rw [time_bin_starts_eq]
    simp
  · rw [time_bin_stops_eq]
    simp
  · intro k hk
    exact ⟨time_bin_starts_get e l n k hk, time_bin_stops_get e l n k hk⟩
  · intro k _
    exact np_round_abs_le _
  · intro k hk
    rw [time_bin_stops_get e l n k (by omega),
      time_bin_starts_get e l n (k + 1) hk]
  · intro t ht0 ht1
    have h0 : ((np_round (edgeQ e l n 0) : ℤ) : ℚ) ≤ t := by
      rw [edgeQ_zero]
      exact ht0
    have h1' : t ≤ ((np_round (edgeQ e l n n) : ℤ) : ℚ) := by
      rw [edgeQ_last e l n hn0]
      exact ht1
    obtain ⟨k, hk, hk1, hk2⟩ :=
      exists_crossing (fun k => ((np_round (edgeQ e l n k) : ℤ) : ℚ)) n h1 t h0 h1'
    exact ⟨k, np_round (edgeQ e l n k), np_round (edgeQ e l n (k + 1)),
      time_bin_starts_get e l n k hk, time_bin_stops_get e l n k hk, hk1, hk2⟩

theorem time_bins_amended_witness :
    (time_bin_starts 0 10 2).length = 2 ∧
    (time_bin_stops 0 10 2).length = 2 ∧
    (∀ k, k < 2 →
      (time_bin_starts 0 10 2)[k]? = some (np_round (edgeQ 0 10 2 k)) ∧
      (time_bin_stops 0 10 2)[k]? = some (np_round (edgeQ 0 10 2 (k + 1)))) ∧
    (∀ k, k ≤ 2 → |(np_round (edgeQ 0 10 2 k) : ℚ) - edgeQ 0 10 2 k| ≤ 1 / 2) ∧
    (∀ k, k + 1 < 2 →
      (time_bin_stops 0 10 2)[k]? = (time_bin_starts 0 10 2)[k + 1]?) ∧
    covers (time_bin_starts 0 10 2) (time_bin_stops 0 10 2)
      ((np_round 0 : ℤ) : ℚ) ((np_round 10 : ℤ) : ℚ) :=
  time_bins_amended 0 10 2 (by omega) (by norm_num)
